import Mathlib

/-!
Verification of the `A11YTreeViewNavigation` class (tree-view navigation engine)
of the a11y-components repository.

The engine operates on live DOM markup of the shape

  container > ul[root list] > li* , where each li = [a.menu__link, (ul group)?]

We shallow-embed this structure as follows.

* The static tree shape is a list of items in document order (`Shape`).  Each
  item records its link text (`label`), whether the host pre-marked it active
  (`active`, the `is-active` class), whether a `ul` group element follows it as
  its next element sibling (`hasGroup`), and the index of the owning item of
  its enclosing list (`parent`; `none` when the enclosing list is the root
  list).  This mirrors the DOM tree restricted to the nodes the code queries:
  an `li` and its `.menu__link` are identified with the item index, and a
  group `ul` is identified with its owning item's index.

* The dynamic state (`TState`) holds, per item index, the attributes the
  engine writes (`aria-role`, `aria-expanded`, `aria-owns`, `aria-current`,
  `tabIndex`), per group the attributes written on the `ul` (`aria-role` and
  `id`), whether a trigger button has been appended to the item, the `role`
  attribute of the root list, and which element currently has DOM focus.

* The embedded document contains exactly the one tree: the root list has no
  previous element sibling inside the container and the container itself has
  no element siblings (the host contract exposes "a container exposing exactly
  one ordered child list").  Consequently `closest('.book-navigation')` is
  null for every item, and DOM accesses on null are modelled as a thrown
  `TypeError` in an `Except` monad, matching the JavaScript semantics where a
  handler either fully applies its single state write or throws before any
  write.
-/

namespace A11YTreeView

/-! ### cleanForId (static cleanForId, source lines 354-362)

JavaScript string pipeline: lowercase, trim, remove every character that is
not a word character, whitespace or hyphen, replace each whitespace run with
a hyphen, collapse hyphen runs, then `.replace('open', '')`.
Modelled over the character list of the string.  `\w` is `[A-Za-z0-9_]`,
`\s` is modelled by its ASCII subset (the claims only use ASCII inputs), and
`String.prototype.replace` with a plain-string pattern replaces only the
first occurrence. -/

def isJsSpace (c : Char) : Bool :=
  c == ' ' || c == '\t' || c == '\n' || c == '\r' || c == '\x0b' || c == '\x0c'

def isWordChar (c : Char) : Bool :=
  c.isAlpha || c.isDigit || c == '_'

/-- `String.prototype.trim`: strip leading and trailing whitespace. -/
def jsTrim (cs : List Char) : List Char :=
  ((cs.dropWhile isJsSpace).reverse.dropWhile isJsSpace).reverse

/-- Replace each maximal run of characters satisfying `p` by the single
character `r` (models a global regex replace of `p`-runs by `r`). -/
def squashRuns (p : Char → Bool) (r : Char) : List Char → List Char
  | [] => []
  | c :: cs =>
    if p c then
      match cs with
      | [] => [r]
      | d :: _ => if p d then squashRuns p r cs else r :: squashRuns p r cs
    else c :: squashRuns p r cs

def startsWithChars : List Char → List Char → Bool
  | [], _ => true
  | _ :: _, [] => false
  | p :: ps, c :: cs => p == c && startsWithChars ps cs

/-- Remove the first occurrence of `pat` (models `.replace(pat, '')` with a
plain-string pattern, which replaces only the first match). -/
def removeFirstOcc (pat : List Char) : List Char → List Char
  | [] => []
  | c :: cs =>
    if startsWithChars pat (c :: cs) then (c :: cs).drop pat.length
    else c :: removeFirstOcc pat cs

/-- `A11YTreeViewNavigation.cleanForId` (source lines 354-362). -/
def cleanForId (s : String) : String :=
  let step1 := s.data.map Char.toLower
  let step2 := jsTrim step1
  let step3 := step2.filter fun c => isWordChar c || isJsSpace c || c == '-'
  let step4 := squashRuns isJsSpace '-' step3
  let step5 := squashRuns (fun c => c == '-') '-' step4
  String.mk (removeFirstOcc ['o', 'p', 'e', 'n'] step5)

/-! ### Tree shape -/

/-- One `.menu__link` item of the menu, in document order position.
`parent` is the index of the owning item of the enclosing `ul` (`none` when
the enclosing `ul` is the root list); `hasGroup` records whether a group
`ul` is the item's next element sibling. -/
structure FlatItem where
  label : String
  active : Bool
  hasGroup : Bool
  parent : Option Nat

/-- The tree shape: `this.treeItems` in document order. -/
abbrev Shape := List FlatItem

def labelOf (t : Shape) (i : Nat) : String :=
  ((t.get? i).map FlatItem.label).getD ""

def isActive (t : Shape) (i : Nat) : Bool :=
  ((t.get? i).map FlatItem.active).getD false

def hasGroupIdx (t : Shape) (i : Nat) : Bool :=
  ((t.get? i).map FlatItem.hasGroup).getD false

def parentOf (t : Shape) (i : Nat) : Option Nat :=
  match t.get? i with
  | some fi => fi.parent
  | none => none

/-- Chain of owning items above item `i`, bottom-up (`parent`, grandparent,
...).  The fuel argument `i` suffices because owners precede their items in
document order. -/
def ancestorsFuel (t : Shape) : Nat → Nat → List Nat
  | 0, _ => []
  | fuel + 1, i =>
    match parentOf t i with
    | some p => p :: ancestorsFuel t fuel p
    | none => []

def ancestors (t : Shape) (i : Nat) : List Nat :=
  ancestorsFuel t i i

def isAncestorB (t : Shape) (a i : Nat) : Bool :=
  decide (a ∈ ancestors t i)

/-- Indices of the direct child items of item `p`'s group, in document order
(the `:scope > li` entries of the group `ul`). -/
def childrenOf (t : Shape) (p : Nat) : List Nat :=
  (List.range t.length).filter fun j => decide (parentOf t j = some p)

/-- Indices of the root-level items, in document order (the `:scope > li`
entries of the root list). -/
def rootsOf (t : Shape) : List Nat :=
  (List.range t.length).filter fun j => decide (parentOf t j = none)

/-- The items of the `li` siblings of item `i`'s `li`, including `i`. -/
def siblingsOf (t : Shape) (i : Nat) : List Nat :=
  match parentOf t i with
  | some p => childrenOf t p
  | none => rootsOf t

/-- `treeItem.parentNode.nextElementSibling`'s item: the item of the next
`li` in the same list. -/
def nextSibling (t : Shape) (i : Nat) : Option Nat :=
  ((siblingsOf t i).filter fun j => decide (i < j)).head?

/-- `treeItem.parentNode.previousElementSibling`'s item. -/
def prevSibling (t : Shape) (i : Nat) : Option Nat :=
  ((siblingsOf t i).filter fun j => decide (j < i)).getLast?

/-- All items inside item `j`'s `li` (itself and its descendants), in
document order: the search space of `li.querySelector(...)`. -/
def subtreeItems (t : Shape) (j : Nat) : List Nat :=
  j :: ((List.range t.length).filter fun k => isAncestorB t j k)

/-- Structural well-formedness: every owning item precedes its children in
document order and carries a following-sibling group `ul`. -/
def wfParentB (t : Shape) : Bool :=
  (List.range t.length).all fun j =>
    match parentOf t j with
    | none => true
    | some p => decide (p < j) && hasGroupIdx t p

/-- Document-order contiguity: the descendants of an item form a contiguous
block right after it (true of every genuine DOM flattening). -/
def contigB (t : Shape) : Bool :=
  (List.range t.length).all fun p =>
    (List.range t.length).all fun q =>
      (List.range t.length).all fun i =>
        !(decide (p < q) && decide (q ≤ i) && isAncestorB t p i) || isAncestorB t p q

/-! ### Dynamic state -/

/-- The attribute / focus state the engine reads and writes.  All maps are
indexed by item position in document order; `groupRole`/`groupId` are the
attributes of the group `ul` owned by the indexed item. -/
structure TState where
  ariaRole : Nat → Option String
  ariaExpanded : Nat → Option String
  ariaOwns : Nat → Option String
  ariaCurrent : Nat → Option String
  tabIndex : Nat → Int
  groupRole : Nat → Option String
  groupId : Nat → Option String
  trigger : Nat → Bool
  rootRole : Option String
  focus : Option Nat

/-- The host markup before setup: no ARIA attributes anywhere (the host
page owns only classes and structure, per the external-interface contract);
links have the default tab index 0 and nothing is focused. -/
def initState : TState where
  ariaRole := fun _ => none
  ariaExpanded := fun _ => none
  ariaOwns := fun _ => none
  ariaCurrent := fun _ => none
  tabIndex := fun _ => 0
  groupRole := fun _ => none
  groupId := fun _ => none
  trigger := fun _ => false
  rootRole := none
  focus := none

def TState.setRole (s : TState) (i : Nat) (v : String) : TState :=
  { s with ariaRole := fun j => if j = i then some v else s.ariaRole j }

def TState.setExpanded (s : TState) (i : Nat) (v : String) : TState :=
  { s with ariaExpanded := fun j => if j = i then some v else s.ariaExpanded j }

def TState.setOwns (s : TState) (i : Nat) (v : String) : TState :=
  { s with ariaOwns := fun j => if j = i then some v else s.ariaOwns j }

def TState.setCurrent (s : TState) (i : Nat) (v : String) : TState :=
  { s with ariaCurrent := fun j => if j = i then some v else s.ariaCurrent j }

def TState.setTab (s : TState) (i : Nat) (v : Int) : TState :=
  { s with tabIndex := fun j => if j = i then v else s.tabIndex j }

def TState.setGroupRole (s : TState) (i : Nat) (v : String) : TState :=
  { s with groupRole := fun j => if j = i then some v else s.groupRole j }

def TState.setGroupId (s : TState) (i : Nat) (v : String) : TState :=
  { s with groupId := fun j => if j = i then some v else s.groupId j }

def TState.setTrigger (s : TState) (i : Nat) (v : Bool) : TState :=
  { s with trigger := fun j => if j = i then v else s.trigger j }

def TState.setRootRole (s : TState) (v : String) : TState :=
  { s with rootRole := some v }

def TState.setFocus (s : TState) (v : Option Nat) : TState :=
  { s with focus := v }

/-! ### Predicates (source lines 405-435) -/

/-- `isExpanded` (source line 433): `getAttribute('aria-expanded') === 'true'`. -/
def isExpanded (s : TState) (i : Nat) : Bool :=
  decide (s.ariaExpanded i = some "true")

/-- `isExpandable` (source line 423): `hasAttribute('aria-expanded')`. -/
def isExpandable (s : TState) (i : Nat) : Bool :=
  (s.ariaExpanded i).isSome

/-- `isVisible` (source lines 405-414).  `treeItem.closest('ul')` is the
enclosing list; its `previousElementSibling` is the owning item when the
enclosing list is a group, and absent when it is the root list (the root
list is the first element child of the container).  The guard
`!parentTreeItem || !isExpanded(parentTreeItem)` then returns `false`. -/
def isVisible (t : Shape) (s : TState) (i : Nat) : Bool :=
  match parentOf t i with
  | none => false
  | some p => isExpanded s p

/-- `getVisibleTreeItems` (source lines 387-397): every item of
`this.treeItems` satisfying `isVisible`, in document order. -/
def getVisibleTreeItems (t : Shape) (s : TState) : List Nat :=
  (List.range t.length).filter (isVisible t s)

/-! ### Expand / collapse primitives (source lines 264-282) -/

/-- `collapseTreeItem` (source lines 264-269). -/
def collapseTreeItem (s : TState) (i : Nat) : TState :=
  if isExpandable s i && isExpanded s i then s.setExpanded i "false" else s

/-- `expandTreeItem` (source lines 277-282). -/
def expandTreeItem (s : TState) (i : Nat) : TState :=
  if isExpandable s i && !isExpanded s i then s.setExpanded i "true" else s

/-! ### Setup (constructor path, source lines 20-117) -/

/-- One step of the `while (current)` loop body of `updateActiveTree`
(source lines 219-233): for an `li` with class `menu-item`, its first `a`
descendant is the owning item of that subtree; its expansion is forced to
`"true"` only when the `aria-expanded` attribute is already present. -/
def expandChainStep (s : TState) (j : Nat) : TState :=
  if (s.ariaExpanded j).isSome then s.setExpanded j "true" else s

/-- `updateActiveTree` (source lines 219-233): walks the `parentElement`
chain of the active item.  The `menu-item` list entries met on the way are
the active item's own `li` (whose first `a` is the active item itself)
followed by the `li` of each owning item, bottom-up. -/
def updateActiveTree (t : Shape) (s : TState) (i : Nat) : TState :=
  (i :: ancestors t i).foldl expandChainStep s

/-- Per-item body of `adjustLinkAttributes` (source lines 80-99), in source
order: set `aria-role`, remove from tab order, handle the `is-active` class
(`aria-current`, tab index 0, `updateActiveTree`), then handle a following
element sibling (`aria-owns` and collapsed `aria-expanded`). -/
def processItem (t : Shape) (s : TState) (i : Nat) : TState :=
  let s1 := (s.setRole i "tree-item").setTab i (-1)
  let s2 :=
    if isActive t i then updateActiveTree t ((s1.setCurrent i "page").setTab i 0) i
    else s1
  if hasGroupIdx t i then
    (s2.setOwns i (cleanForId (labelOf t i))).setExpanded i "false"
  else s2

/-- `adjustLinkAttributes` (source lines 80-99): `this.treeItems.forEach`. -/
def adjustLinkAttributes (t : Shape) (s : TState) : TState :=
  (List.range t.length).foldl (processItem t) s

/-- Per-group body of `adjustSubMenuAttributes` (source lines 108-117):
each non-root `ul`'s `previousElementSibling` is its owning item. -/
def subMenuStep (t : Shape) (s : TState) (i : Nat) : TState :=
  if hasGroupIdx t i then
    (s.setGroupRole i "group").setGroupId i (cleanForId (labelOf t i))
  else s

/-- `adjustSubMenuAttributes` (source lines 108-117). -/
def adjustSubMenuAttributes (t : Shape) (s : TState) : TState :=
  (List.range t.length).foldl (subMenuStep t) s

/-- `getGroupNode` (source lines 371-380): look the `aria-owns` identifier
up in the whole document (first group `ul` whose `id` matches); an empty
identifier is falsy and yields no group. -/
def getGroupNode (t : Shape) (s : TState) (i : Nat) : Option Nat :=
  match s.ariaOwns i with
  | some id => if id = "" then none
    else ((List.range t.length).filter fun j => decide (s.groupId j = some id)).head?
  | none => none

/-- Per-item body of `attachTriggers` (source lines 56-69): the trigger
button is appended (and its click listener added) only when `getGroupNode`
finds the owned group. -/
def triggerStep (t : Shape) (s : TState) (i : Nat) : TState :=
  if (getGroupNode t s i).isSome then s.setTrigger i true else s

/-- `attachTriggers` (source lines 56-69). -/
def attachTriggers (t : Shape) (s : TState) : TState :=
  (List.range t.length).foldl (triggerStep t) s

/-- `initializeTreeViews` (source lines 37-46): root `role="tree"`, then
attribute adjustment, then trigger injection.  (Keydown listener
installation has no attribute effect and is not represented.) -/
def initTreeViews (t : Shape) : TState :=
  attachTriggers t (adjustSubMenuAttributes t
    (adjustLinkAttributes t (initState.setRootRole "tree")))

/-- The state produced by constructing the engine on host markup `t`. -/
def setup (t : Shape) : TState :=
  initTreeViews t

/-! ### Focus movement (source lines 290-344) -/

inductive JsErr where
  | typeError
deriving DecidableEq

/-- `setFocusToTreeItem` (source lines 290-292): `treeItem.focus()`.
Calling it on `undefined`/`null` throws a `TypeError`. -/
def setFocusToTreeItem (s : TState) : Option Nat → Except JsErr TState
  | some j => Except.ok (s.setFocus (some j))
  | none => Except.error JsErr.typeError

/-- `element.querySelector(':scope > [aria-role="tree-item"]')` on an `li`:
the `li`'s own item when it carries the attribute. -/
def directRoleItem (s : TState) (q : Nat) : Option Nat :=
  if s.ariaRole q = some "tree-item" then some q else none

/-- `li.querySelector('[aria-role="tree-item"]')`: first descendant item of
the `li` carrying the attribute, in document order. -/
def firstRoleItem (s : TState) (l : List Nat) : Option Nat :=
  (l.filter fun x => decide (s.ariaRole x = some "tree-item")).head?

/-- `setFocusToNextTreeItem` (source lines 300-318).  Branch 1 dereferences
`treeItem.nextElementSibling`, which throws when the item is expanded but
has no following sibling; when expanded with an empty child selection the
two remaining `!isExpanded(...)` branches are false, hence a no-op.  Branch
3 uses optional chaining on the `querySelector` result. -/
def setFocusToNextTreeItem (t : Shape) (s : TState) (i : Nat) : Except JsErr TState :=
  if isExpanded s i then
    if hasGroupIdx t i then
      let cs := (childrenOf t i).filter fun j => decide (s.ariaRole j = some "tree-item")
      if 0 < cs.length then setFocusToTreeItem s cs.head?
      else Except.ok s
    else Except.error JsErr.typeError
  else
    match nextSibling t i with
    | some j => setFocusToTreeItem s (firstRoleItem s (subtreeItems t j))
    | none =>
      match parentOf t i with
      | some p =>
        match nextSibling t p with
        | some q =>
          match directRoleItem s q with
          | some r => Except.ok (s.setFocus (some r))
          | none => Except.ok s
        | none => Except.ok s
      | none => Except.ok s

/-- `li.querySelector(':scope > ul > li:last-of-type > [aria-role="tree-item"]')`:
the item of the last entry of `j`'s group. -/
def lastDirectChildRoleItem (t : Shape) (s : TState) (j : Nat) : Option Nat :=
  if hasGroupIdx t j then
    match (childrenOf t j).getLast? with
    | some c => directRoleItem s c
    | none => none
  else none

/-- `setFocusToPreviousTreeItem` (source lines 328-344).  The guard of
branch 1 calls `isExpanded` on the preceding `li`'s `querySelector` result,
which throws when that result is null; branch 2 can pass null to
`setFocusToTreeItem` (a throw); branch 3's `parentNode.previousElementSibling`
is the owning item for a group list and absent for the root list. -/
def setFocusToPreviousTreeItem (t : Shape) (s : TState) (i : Nat) : Except JsErr TState :=
  match prevSibling t i with
  | some j =>
    match firstRoleItem s (subtreeItems t j) with
    | none => Except.error JsErr.typeError
    | some q =>
      if isExpanded s q then setFocusToTreeItem s (lastDirectChildRoleItem t s j)
      else setFocusToTreeItem s (some q)
  | none =>
    match parentOf t i with
    | some p => setFocusToTreeItem s (some p)
    | none => Except.ok s

/-! ### Keyboard dispatch (onKeydown, source lines 127-209) -/

structure KeyEvent where
  key : String
  altKey : Bool
  ctrlKey : Bool
  metaKey : Bool
  target : Nat

/-- The legacy `Down`-key special case guard (source lines 150-153): the
item has the depth-2 link class and is the item of the last `li` of its
enclosing list. -/
def levelTwoLast (t : Shape) (s : TState) (i : Nat) : Bool :=
  ((ancestors t i).length == 1) &&
    (match (siblingsOf t i).getLast? with
     | some l => directRoleItem s l == some i
     | none => false)

/-- `onKeydown` (source lines 127-209).  In the embedded single-tree
document `closest('.book-navigation')` is null, so the legacy cross-section
jump dereferences null and throws. -/
def onKeydown (t : Shape) (s : TState) (e : KeyEvent) : Except JsErr TState :=
  if e.altKey || e.ctrlKey || e.metaKey then Except.ok s
  else if e.key = " " then Except.ok s
  else if e.key = "Up" ∨ e.key = "ArrowUp" then setFocusToPreviousTreeItem t s e.target
  else if e.key = "Down" ∨ e.key = "ArrowDown" then
    (if levelTwoLast t s e.target then Except.error JsErr.typeError
     else setFocusToNextTreeItem t s e.target)
  else if e.key = "Right" ∨ e.key = "ArrowRight" then
    (if isExpandable s e.target then
      (if isExpanded s e.target then setFocusToNextTreeItem t s e.target
       else Except.ok (expandTreeItem s e.target))
     else Except.ok s)
  else if e.key = "Left" ∨ e.key = "ArrowLeft" then
    (if isExpanded s e.target then Except.ok (collapseTreeItem s e.target)
     else setFocusToPreviousTreeItem t s e.target)
  else if e.key = "Home" then
    setFocusToTreeItem s (if 0 < t.length then some 0 else none)
  else if e.key = "End" then
    setFocusToTreeItem s (getVisibleTreeItems t s).getLast?
  else Except.ok s

/-- Dispatch a sequence of keydown events.  A thrown exception propagates
out of the event listener leaving the document state as it was; later
events are still delivered. -/
def runKeys (t : Shape) (s : TState) : List KeyEvent → TState
  | [] => s
  | e :: es =>
    match onKeydown t s e with
    | Except.ok s2 => runKeys t s2 es
    | Except.error _ => runKeys t s es

/-! ### Constructor argument handling (source lines 20-29) -/

/-- The JavaScript values a caller can pass to the constructor. -/
inductive JsArg where
  | jsUndefined
  | jsNull
  | jsBool (b : Bool)
  | jsNumber (n : Int)
  | jsString (s : String)
  | jsPlainObject
  | jsNode (t : Shape)

/-- `typeof node === 'object'`: true for `null`, plain objects and DOM
nodes. -/
def typeofObject : JsArg → Bool
  | JsArg.jsNull => true
  | JsArg.jsPlainObject => true
  | JsArg.jsNode _ => true
  | _ => false

/-- The constructor (source lines 20-29).  Arguments whose `typeof` is not
`'object'` exit before any setup (an inert instance, `none`).  For `null`
the guard passes (`typeof null === 'object'`) and `node.querySelector`
throws a `TypeError`; a plain object has no `querySelector` method, also a
`TypeError`.  A structural node runs the full setup. -/
def construct : JsArg → Except JsErr (Option (Shape × TState))
  | JsArg.jsNull => Except.error JsErr.typeError
  | JsArg.jsPlainObject => Except.error JsErr.typeError
  | JsArg.jsNode t => Except.ok (some (t, setup t))
  | _ => Except.ok none

/-! ### Concrete trees and events used by the claims -/

/-- A single root-level item. -/
def treeSingle : Shape := [⟨"aa", false, false, none⟩]

/-- Scenario B: item 0 owns a group with two children (items 1 and 2). -/
def treeB : Shape :=
  [⟨"aa", false, true, none⟩, ⟨"bb", false, false, some 0⟩, ⟨"cc", false, false, some 0⟩]

/-- Three levels: item 0 owns item 1, which owns item 2. -/
def tree3 : Shape :=
  [⟨"aa", false, true, none⟩, ⟨"bb", false, true, some 0⟩, ⟨"cc", false, false, some 1⟩]

/-- Three levels with the deepest item pre-marked active (Scenario D). -/
def treeD : Shape :=
  [⟨"aa", false, true, none⟩, ⟨"bb", false, true, some 0⟩, ⟨"cc", true, false, some 1⟩]

def keyEvent (k : String) (i : Nat) : KeyEvent :=
  { key := k, altKey := false, ctrlKey := false, metaKey := false, target := i }

/-- Observations on `Except` results (state equality itself is not
decidable, the state holds functions). -/
def isOkE : Except JsErr TState → Bool
  | Except.ok _ => true
  | Except.error _ => false

def isTypeErrorE : Except JsErr TState → Bool
  | Except.error JsErr.typeError => true
  | _ => false

/-- Apply one keydown, keeping the state on a throw. -/
def stepKey (t : Shape) (s : TState) (e : KeyEvent) : TState :=
  match onKeydown t s e with
  | Except.ok s2 => s2
  | Except.error _ => s

/-! ### Projection lemmas for the state setters -/

@[simp] theorem setRole_ariaExpanded (s : TState) (i v) : (s.setRole i v).ariaExpanded = s.ariaExpanded := rfl

@[simp] theorem setOwns_ariaExpanded (s : TState) (i v) : (s.setOwns i v).ariaExpanded = s.ariaExpanded := rfl

@[simp] theorem setCurrent_ariaExpanded (s : TState) (i v) : (s.setCurrent i v).ariaExpanded = s.ariaExpanded := rfl

@[simp] theorem setTab_ariaExpanded (s : TState) (i v) : (s.setTab i v).ariaExpanded = s.ariaExpanded := rfl

@[simp] theorem setGroupRole_ariaExpanded (s : TState) (i v) : (s.setGroupRole i v).ariaExpanded = s.ariaExpanded := rfl

@[simp] theorem setGroupId_ariaExpanded (s : TState) (i v) : (s.setGroupId i v).ariaExpanded = s.ariaExpanded := rfl

@[simp] theorem setTrigger_ariaExpanded (s : TState) (i v) : (s.setTrigger i v).ariaExpanded = s.ariaExpanded := rfl

@[simp] theorem setRootRole_ariaExpanded (s : TState) (v) : (s.setRootRole v).ariaExpanded = s.ariaExpanded := rfl

@[simp] theorem setFocus_ariaExpanded (s : TState) (v) : (s.setFocus v).ariaExpanded = s.ariaExpanded := rfl

theorem setExpanded_ariaExpanded (s : TState) (i v j) :
    (s.setExpanded i v).ariaExpanded j = if j = i then some v else s.ariaExpanded j := rfl

@[simp] theorem setRole_tabIndex (s : TState) (i v) : (s.setRole i v).tabIndex = s.tabIndex := rfl

@[simp] theorem setExpanded_tabIndex (s : TState) (i v) : (s.setExpanded i v).tabIndex = s.tabIndex := rfl

@[simp] theorem setOwns_tabIndex (s : TState) (i v) : (s.setOwns i v).tabIndex = s.tabIndex := rfl

@[simp] theorem setCurrent_tabIndex (s : TState) (i v) : (s.setCurrent i v).tabIndex = s.tabIndex := rfl

@[simp] theorem setGroupRole_tabIndex (s : TState) (i v) : (s.setGroupRole i v).tabIndex = s.tabIndex := rfl

@[simp] theorem setGroupId_tabIndex (s : TState) (i v) : (s.setGroupId i v).tabIndex = s.tabIndex := rfl

@[simp] theorem setTrigger_tabIndex (s : TState) (i v) : (s.setTrigger i v).tabIndex = s.tabIndex := rfl

@[simp] theorem setRootRole_tabIndex (s : TState) (v) : (s.setRootRole v).tabIndex = s.tabIndex := rfl

@[simp] theorem setFocus_tabIndex (s : TState) (v) : (s.setFocus v).tabIndex = s.tabIndex := rfl

theorem setTab_tabIndex (s : TState) (i v j) :
    (s.setTab i v).tabIndex j = if j = i then v else s.tabIndex j := rfl

@[simp] theorem setRole_focus (s : TState) (i v) : (s.setRole i v).focus = s.focus := rfl

@[simp] theorem setExpanded_focus (s : TState) (i v) : (s.setExpanded i v).focus = s.focus := rfl

@[simp] theorem setOwns_focus (s : TState) (i v) : (s.setOwns i v).focus = s.focus := rfl

@[simp] theorem setCurrent_focus (s : TState) (i v) : (s.setCurrent i v).focus = s.focus := rfl

@[simp] theorem setTab_focus (s : TState) (i v) : (s.setTab i v).focus = s.focus := rfl

@[simp] theorem setGroupRole_focus (s : TState) (i v) : (s.setGroupRole i v).focus = s.focus := rfl

@[simp] theorem setGroupId_focus (s : TState) (i v) : (s.setGroupId i v).focus = s.focus := rfl

@[simp] theorem setTrigger_focus (s : TState) (i v) : (s.setTrigger i v).focus = s.focus := rfl

@[simp] theorem setRootRole_focus (s : TState) (v) : (s.setRootRole v).focus = s.focus := rfl

@[simp] theorem setFocus_focus (s : TState) (v) : (s.setFocus v).focus = v := rfl

/-- A fold whose step preserves an observation preserves it overall. -/
theorem foldlPres {α β γ : Type _} (g : α → γ) (f : α → β → α)
    (H : ∀ s x, g (f s x) = g s) : ∀ (L : List β) (s : α), g (L.foldl f s) = g s := by
  intro L
  induction L with
  | nil => intro s; rfl
  | cons x xs ih => intro s; rw [List.foldl_cons, ih, H]

/-! ### Claim theorems, first batch -/

/-- C3.  `cleanForId` on " Section  One! " yields "section-one", and on
"Open" the final first-occurrence replacement of "open" erases the whole
identifier. -/
theorem claim_C3 : cleanForId " Section  One! " = "section-one" ∧ cleanForId "Open" = "" := by
  decide

/-- C1 (code bug).  For a root-level item, `closest('ul')` is the root
list, whose `previousElementSibling` is not an expanded tree item, so the
guard of `isVisible` returns `false`: root-level items are never visible,
contradicting the specified "root-level Items are always visible".
Consequently the visible-items query of a freshly constructed single-item
tree is empty and the `End` key handler calls `focus()` on `undefined`,
throwing a `TypeError`. -/
theorem claim_C1 :
    isVisible treeSingle (setup treeSingle) 0 = false ∧
    getVisibleTreeItems treeSingle (setup treeSingle) = [] ∧
    isTypeErrorE (onKeydown treeSingle (setup treeSingle) (keyEvent "End" 0)) = true := by
  decide

/-- C2, counterexample.  In the three-level tree, after expanding item 1
while its own ancestor item 0 stays collapsed, item 2 (which has the
collapsed ancestor 0) is returned by the visible-items query: visibility is
checked one level up only, not transitively. -/
theorem claim_C2_counterexample :
    isAncestorB tree3 0 2 = true ∧
    isExpanded (expandTreeItem (setup tree3) 1) 0 = false ∧
    2 ∈ getVisibleTreeItems tree3 (expandTreeItem (setup tree3) 1) := by
  decide

/-- C2, amended.  The visible-items query never returns an item whose
immediate enclosing list's owning item is collapsed (the exclusion is not
transitive through farther ancestors). -/
theorem claim_C2 (t : Shape) (s : TState) (i p : Nat)
    (hp : parentOf t i = some p) (he : isExpanded s p = false) :
    i ∉ getVisibleTreeItems t s := by
  intro hmem
  have hvis := (List.mem_filter.mp hmem).2
  rw [isVisible, hp] at hvis
  simp only at hvis
  rw [he] at hvis
  exact Bool.false_ne_true hvis

theorem claim_C2_witness :
    parentOf tree3 1 = some 0 ∧
    isExpanded (expandTreeItem (setup tree3) 1) 0 = false ∧
    1 ∉ getVisibleTreeItems tree3 (expandTreeItem (setup tree3) 1) :=
  ⟨by decide, by decide, claim_C2 tree3 (expandTreeItem (setup tree3) 1) 1 0 (by decide) (by decide)⟩

/-- C6, counterexample.  `typeof null === 'object'`, so `null` passes the
constructor's guard and `node.querySelector(':scope > ul')` throws a
`TypeError`: construction on `null` is not exception-free. -/
theorem claim_C6_counterexample : construct JsArg.jsNull = Except.error JsErr.typeError := rfl

/-- C6, amended.  Construction is inert (no exception and no setup at all)
exactly for the arguments whose `typeof` is not `'object'` - undefined,
booleans, numbers, strings; for `null` and plain non-node objects the
constructor instead throws a `TypeError` before performing any setup. -/
theorem claim_C6 (a : JsArg) (h : typeofObject a = false) : construct a = Except.ok none := by
  cases a <;> simp_all [typeofObject, construct]

theorem claim_C6_witness :
    typeofObject (JsArg.jsString "x") = false ∧
    construct (JsArg.jsString "x") = Except.ok none :=
  ⟨by decide, claim_C6 (JsArg.jsString "x") (by decide)⟩

/-- C7 (Scenario B).  In the tree where item 0 owns a collapsed group with
two children: `ArrowRight` on item 0 sets its `aria-expanded` to `"true"`
without moving focus; a second `ArrowRight` moves focus to the group's
first child (item 1); `ArrowLeft` on that non-expandable child moves focus
back to item 0. -/
theorem claim_C7 :
    (setup treeB).ariaExpanded 0 = some "false" ∧
    (let s0 := (setup treeB).setFocus (some 0)
     let s1 := stepKey treeB s0 (keyEvent "ArrowRight" 0)
     let s2 := stepKey treeB s1 (keyEvent "ArrowRight" 0)
     let s3 := stepKey treeB s2 (keyEvent "ArrowLeft" 1)
     isOkE (onKeydown treeB s0 (keyEvent "ArrowRight" 0)) = true
     ∧ s1.ariaExpanded 0 = some "true" ∧ s1.focus = some 0
     ∧ isOkE (onKeydown treeB s1 (keyEvent "ArrowRight" 0)) = true ∧ s2.focus = some 1
     ∧ isExpandable s2 1 = false
     ∧ isOkE (onKeydown treeB s2 (keyEvent "ArrowLeft" 1)) = true ∧ s3.focus = some 0) := by
  decide

/-- C9.  `expand` on an already-expanded or non-expandable item and
`collapse` on an already-collapsed or non-expandable item return the state
unchanged (every attribute of every element); and neither primitive ever
changes the focused element or any tab index. -/
theorem claim_C9 (s : TState) (i : Nat) :
    ((isExpanded s i = true ∨ isExpandable s i = false) → expandTreeItem s i = s) ∧
    ((isExpanded s i = false ∨ isExpandable s i = false) → collapseTreeItem s i = s) ∧
    (expandTreeItem s i).focus = s.focus ∧ (expandTreeItem s i).tabIndex = s.tabIndex ∧
    (collapseTreeItem s i).focus = s.focus ∧ (collapseTreeItem s i).tabIndex = s.tabIndex := by
  refine ⟨?_, ?_, ?_, ?_, ?_, ?_⟩
  · intro h
    rcases h with h | h <;> (rw [expandTreeItem, if_neg]; simp [h])
  · intro h
    rcases h with h | h <;> (rw [collapseTreeItem, if_neg]; simp [h])
  · rw [expandTreeItem]; split <;> simp
  · rw [expandTreeItem]; split <;> simp
  · rw [collapseTreeItem]; split <;> simp
  · rw [collapseTreeItem]; split <;> simp

theorem claim_C9_witness :
    ((isExpanded (setup treeB) 1 = true ∨ isExpandable (setup treeB) 1 = false)
      ∧ expandTreeItem (setup treeB) 1 = setup treeB) ∧
    ((isExpanded (setup treeB) 0 = false ∨ isExpandable (setup treeB) 0 = false)
      ∧ collapseTreeItem (setup treeB) 0 = setup treeB) :=
  ⟨⟨Or.inr (by decide), (claim_C9 (setup treeB) 1).1 (Or.inr (by decide))⟩,
   ⟨Or.inl (by decide), (claim_C9 (setup treeB) 0).2.1 (Or.inl (by decide))⟩⟩

/-! ### Tab-index preservation: keyboard handling never writes a tab index -/

theorem setFocusToTreeItem_ok_tab (s : TState) (o : Option Nat) (s2 : TState)
    (h : setFocusToTreeItem s o = Except.ok s2) : s2.tabIndex = s.tabIndex := by
  cases o with
  | none => exact Except.noConfusion h
  | some j =>
    rw [setFocusToTreeItem] at h
    cases h
    simp

theorem expandTreeItem_tab (s : TState) (i : Nat) :
    (expandTreeItem s i).tabIndex = s.tabIndex := by
  rw [expandTreeItem]; split <;> simp

theorem collapseTreeItem_tab (s : TState) (i : Nat) :
    (collapseTreeItem s i).tabIndex = s.tabIndex := by
  rw [collapseTreeItem]; split <;> simp

theorem setFocusToNextTreeItem_ok_tab (t : Shape) (s : TState) (i : Nat) (s2 : TState)
    (h : setFocusToNextTreeItem t s i = Except.ok s2) : s2.tabIndex = s.tabIndex := by
  simp only [setFocusToNextTreeItem] at h
  repeat' split at h
  all_goals first
    | exact Except.noConfusion h
    | exact setFocusToTreeItem_ok_tab _ _ _ h
    | (cases h; simp)

theorem setFocusToPreviousTreeItem_ok_tab (t : Shape) (s : TState) (i : Nat) (s2 : TState)
    (h : setFocusToPreviousTreeItem t s i = Except.ok s2) : s2.tabIndex = s.tabIndex := by
  simp only [setFocusToPreviousTreeItem] at h
  repeat' split at h
  all_goals first
    | exact Except.noConfusion h
    | exact setFocusToTreeItem_ok_tab _ _ _ h
    | (cases h; simp)

theorem onKeydown_ok_tab (t : Shape) (s : TState) (e : KeyEvent) (s2 : TState)
    (h : onKeydown t s e = Except.ok s2) : s2.tabIndex = s.tabIndex := by
  simp only [onKeydown] at h
  repeat' split at h
  all_goals first
    | exact Except.noConfusion h
    | exact setFocusToPreviousTreeItem_ok_tab _ _ _ _ h
    | exact setFocusToNextTreeItem_ok_tab _ _ _ _ h
    | exact setFocusToTreeItem_ok_tab _ _ _ h
    | (cases h; simp [expandTreeItem_tab, collapseTreeItem_tab])

theorem runKeys_tab (t : Shape) :
    ∀ (es : List KeyEvent) (s : TState), (runKeys t s es).tabIndex = s.tabIndex := by
  intro es
  induction es with
  | nil => intro s; rfl
  | cons e es ih =>
    intro s
    rw [runKeys]
    cases h : onKeydown t s e with
    | ok s2 => rw [ih s2, onKeydown_ok_tab t s e s2 h]
    | error err => exact ih s

/-- At most one item of the tree is in the tab sequence (tab index 0). -/
def atMostOneTabB (t : Shape) (s : TState) : Bool :=
  (List.range t.length).all fun i =>
    (List.range t.length).all fun j =>
      !(decide (s.tabIndex i = 0)) || !(decide (s.tabIndex j = 0)) || decide (i = j)

/-- C4.  Keyboard handling only moves DOM focus and toggles `aria-expanded`
values; no branch of `onKeydown` writes a tab index, so from a state with at
most one tab-reachable item every finite keydown sequence again yields a
state with at most one tab-reachable item. -/
theorem claim_C4 (t : Shape) (s : TState) (es : List KeyEvent)
    (h : atMostOneTabB t s = true) : atMostOneTabB t (runKeys t s es) = true := by
  have hT := runKeys_tab t es s
  rw [atMostOneTabB] at h ⊢
  simp only [hT]
  exact h

theorem claim_C4_witness :
    atMostOneTabB treeB (setup treeB) = true ∧
    atMostOneTabB treeB
      (runKeys treeB (setup treeB) [keyEvent "ArrowDown" 0, keyEvent "End" 0]) = true :=
  ⟨by decide, claim_C4 treeB (setup treeB) [keyEvent "ArrowDown" 0, keyEvent "End" 0] (by decide)⟩

/-! ### Presence of the `aria-expanded` attribute after setup -/

theorem expandChainStep_presence (s : TState) (x k : Nat) :
    ((expandChainStep s x).ariaExpanded k).isSome = (s.ariaExpanded k).isSome := by
  rw [expandChainStep]
  split
  · rename_i hx
    by_cases hk : k = x
    · subst hk; simp [setExpanded_ariaExpanded, hx]
    · simp [setExpanded_ariaExpanded, hk]
  · rfl

theorem updateActiveTree_presence (t : Shape) (s : TState) (i k : Nat) :
    ((updateActiveTree t s i).ariaExpanded k).isSome = (s.ariaExpanded k).isSome := by
  rw [updateActiveTree]
  exact foldlPres (fun s => (s.ariaExpanded k).isSome) expandChainStep
    (fun s x => expandChainStep_presence s x k) _ s

theorem updateActiveTree_tabIndex (t : Shape) (s : TState) (i : Nat) :
    (updateActiveTree t s i).tabIndex = s.tabIndex := by
  rw [updateActiveTree]
  exact foldlPres TState.tabIndex expandChainStep
    (fun s x => by rw [expandChainStep]; split <;> simp) _ s

theorem processItem_presence (t : Shape) (s : TState) (j k : Nat) :
    ((processItem t s j).ariaExpanded k).isSome
      = ((s.ariaExpanded k).isSome || (decide (k = j) && hasGroupIdx t j)) := by
  simp only [processItem]
  by_cases hG : hasGroupIdx t j <;> by_cases hA : isActive t j <;> by_cases hk : k = j <;>
    simp [hG, hA, hk, setExpanded_ariaExpanded, updateActiveTree_presence]

theorem foldl_processItem_presence (t : Shape) :
    ∀ (L : List Nat) (s : TState) (k : Nat),
      (((L.foldl (processItem t) s).ariaExpanded k).isSome)
        = ((s.ariaExpanded k).isSome || (decide (k ∈ L) && hasGroupIdx t k)) := by
  intro L
  induction L with
  | nil => intro s k; simp
  | cons j L ih =>
    intro s k
    rw [List.foldl_cons, ih, processItem_presence]
    by_cases hk : k = j
    · subst hk
      cases hGk : hasGroupIdx t k <;> cases hm : decide (k ∈ L) <;>
        simp [List.mem_cons, hGk, hm]
    · simp [List.mem_cons, hk]

theorem adjustSubMenuAttributes_ariaExpanded (t : Shape) (s : TState) :
    (adjustSubMenuAttributes t s).ariaExpanded = s.ariaExpanded := by
  rw [adjustSubMenuAttributes]
  exact foldlPres TState.ariaExpanded (subMenuStep t)
    (fun s i => by rw [subMenuStep]; split <;> simp) _ s

theorem attachTriggers_ariaExpanded (t : Shape) (s : TState) :
    (attachTriggers t s).ariaExpanded = s.ariaExpanded := by
  rw [attachTriggers]
  exact foldlPres TState.ariaExpanded (triggerStep t)
    (fun s i => by rw [triggerStep]; split <;> simp) _ s

/-- C5.  After setup, an item carries the `aria-expanded` attribute if and
only if a group `ul` follows it as its next element sibling: only the
`nextElementSibling` branch of `adjustLinkAttributes` creates the
attribute, and `updateActiveTree` writes `"true"` only where the attribute
is already present. -/
theorem claim_C5 (t : Shape) (i : Nat) (hi : i < t.length) :
    ((setup t).ariaExpanded i).isSome = hasGroupIdx t i := by
  rw [setup, initTreeViews, attachTriggers_ariaExpanded, adjustSubMenuAttributes_ariaExpanded,
    adjustLinkAttributes, foldl_processItem_presence]
  simp [List.mem_range, hi, initState, TState.setRootRole]

theorem claim_C5_witness :
    (0 < treeB.length ∧ ((setup treeB).ariaExpanded 0).isSome = hasGroupIdx treeB 0) ∧
    (1 < treeB.length ∧ ((setup treeB).ariaExpanded 1).isSome = hasGroupIdx treeB 1) :=
  ⟨⟨by decide, claim_C5 treeB 0 (by decide)⟩, ⟨by decide, claim_C5 treeB 1 (by decide)⟩⟩

/-! ### Structural lemmas for boundary traversal -/

theorem parentOf_lt_length (t : Shape) (j p : Nat) (h : parentOf t j = some p) :
    j < t.length := by
  rw [parentOf] at h
  cases hg : t.get? j with
  | none => rw [hg] at h; exact Option.noConfusion h
  | some fi =>
    by_contra hlen
    rw [List.get?_eq_none.mpr (Nat.le_of_not_lt hlen)] at hg
    exact Option.noConfusion hg

theorem wfParent_spec (t : Shape) (hwf : wfParentB t = true) {j p : Nat}
    (h : parentOf t j = some p) : p < j ∧ hasGroupIdx t p = true := by
  have hj : j < t.length := parentOf_lt_length t j p h
  have hall := List.all_eq_true.mp hwf j (List.mem_range.mpr hj)
  rw [h] at hall
  simp only [Bool.and_eq_true, decide_eq_true_eq] at hall
  exact hall

theorem ancestorsFuel_none (t : Shape) (f x : Nat) (h : parentOf t x = none) :
    ancestorsFuel t f x = [] := by
  cases f with
  | zero => rfl
  | succ f => simp only [ancestorsFuel, h]

theorem ancestorsFuel_lt (t : Shape) (hwf : wfParentB t = true) :
    ∀ (f j x : Nat), x ∈ ancestorsFuel t f j → x < j := by
  intro f
  induction f with
  | zero => intro j x hx; exact absurd hx (List.not_mem_nil x)
  | succ f ih =>
    intro j x hx
    cases hp : parentOf t j with
    | none =>
      rw [ancestorsFuel_none t (f + 1) j hp] at hx
      exact absurd hx (List.not_mem_nil x)
    | some p =>
      simp only [ancestorsFuel, hp] at hx
      rcases List.mem_cons.mp hx with rfl | hx2
      · exact (wfParent_spec t hwf hp).1
      · exact Nat.lt_trans (ih p x hx2) (wfParent_spec t hwf hp).1

theorem mem_ancestors_of_parent (t : Shape) (hwf : wfParentB t = true) {i p : Nat}
    (h : parentOf t i = some p) : p ∈ ancestors t i := by
  have hp : p < i := (wfParent_spec t hwf h).1
  obtain ⟨f, rfl⟩ : ∃ f, i = f + 1 := ⟨i - 1, by omega⟩
  rw [ancestors]
  simp only [ancestorsFuel, h]
  exact List.mem_cons_self _ _

theorem contig_spec (t : Shape) (hcg : contigB t = true) {p q i : Nat}
    (hpn : p < t.length) (hqn : q < t.length) (hin : i < t.length)
    (hpq : p < q) (hqi : q ≤ i) (ha : isAncestorB t p i = true) :
    isAncestorB t p q = true := by
  have h1 := List.all_eq_true.mp hcg p (List.mem_range.mpr hpn)
  have h2 := List.all_eq_true.mp h1 q (List.mem_range.mpr hqn)
  have h3 := List.all_eq_true.mp h2 i (List.mem_range.mpr hin)
  simpa [hpq, hqi, ha] using h3

theorem mem_siblingsOf (t : Shape) {q i : Nat} (h : q ∈ siblingsOf t i) :
    q < t.length ∧ parentOf t q = parentOf t i := by
  rw [siblingsOf] at h
  cases hp : parentOf t i with
  | some p =>
    rw [hp] at h
    have hm := List.mem_filter.mp h
    exact ⟨List.mem_range.mp hm.1, by simpa using hm.2⟩
  | none =>
    rw [hp] at h
    have hm := List.mem_filter.mp h
    exact ⟨List.mem_range.mp hm.1, by simpa using hm.2⟩

theorem nextSibling_last_none (t : Shape) : nextSibling t (t.length - 1) = none := by
  rw [nextSibling]
  have hnil : (siblingsOf t (t.length - 1)).filter
      (fun j => decide (t.length - 1 < j)) = [] := by
    rw [List.filter_eq_nil_iff]
    intro q hq
    have hqn := (mem_siblingsOf t hq).1
    simp only [decide_eq_true_eq]
    omega
  rw [hnil]
  rfl

theorem prevSibling_zero_none (t : Shape) : prevSibling t 0 = none := by
  rw [prevSibling]
  have hnil : (siblingsOf t 0).filter (fun j => decide (j < 0)) = [] := by
    rw [List.filter_eq_nil_iff]
    intro q hq
    simp
  rw [hnil]
  rfl

theorem childrenOf_last_nil (t : Shape) (hwf : wfParentB t = true) :
    childrenOf t (t.length - 1) = [] := by
  rw [childrenOf, List.filter_eq_nil_iff]
  intro j hj
  simp only [decide_eq_true_eq]
  intro hc
  have h1 := (wfParent_spec t hwf hc).1
  have h2 := List.mem_range.mp hj
  omega

/-- A sibling entry after the last item's owning entry cannot exist: the
last item is inside the owner's subtree, and by contiguity any later
sibling of the owner would also have to be inside that subtree. -/
theorem nextSibling_parent_of_last (t : Shape) (hwf : wfParentB t = true)
    (hcg : contigB t = true) {p : Nat} (hpar : parentOf t (t.length - 1) = some p) :
    nextSibling t p = none := by
  have hin : t.length - 1 < t.length := parentOf_lt_length t _ p hpar
  have hplt : p < t.length - 1 := (wfParent_spec t hwf hpar).1
  rw [nextSibling]
  have hnil : (siblingsOf t p).filter (fun j => decide (p < j)) = [] := by
    rw [List.filter_eq_nil_iff]
    intro q hq
    simp only [decide_eq_true_eq]
    intro hlt
    obtain ⟨hqn, hqpar⟩ := mem_siblingsOf t hq
    have hqne : q ≠ t.length - 1 := by
      intro hqeq
      rw [hqeq, hpar] at hqpar
      exact absurd (wfParent_spec t hwf hqpar.symm).1 (Nat.lt_irrefl p)
    have hqle : q ≤ t.length - 1 := by omega
    have hanc : isAncestorB t p (t.length - 1) = true :=
      decide_eq_true (mem_ancestors_of_parent t hwf hpar)
    have h2 : isAncestorB t p q = true :=
      contig_spec t hcg (by omega) hqn hin hlt hqle hanc
    rw [isAncestorB, decide_eq_true_eq] at h2
    cases hpp : parentOf t p with
    | none =>
      have hnil2 : ancestors t q = [] := by
        rw [ancestors]
        exact ancestorsFuel_none t q q (hqpar.trans hpp)
      rw [hnil2] at h2
      exact absurd h2 (List.not_mem_nil p)
    | some pi =>
      have hpiq : parentOf t q = some pi := hqpar.trans hpp
      have hpil : pi < p := (wfParent_spec t hwf hpp).1
      obtain ⟨f, rfl⟩ : ∃ f, q = f + 1 := ⟨q - 1, by omega⟩
      rw [ancestors] at h2
      simp only [ancestorsFuel, hpiq] at h2
      rcases List.mem_cons.mp h2 with rfl | h3
      · exact absurd hpil (Nat.lt_irrefl p)
      · have := ancestorsFuel_lt t hwf f pi p h3
        omega
  rw [hnil]
  rfl

/-- Every item whose `aria-expanded` value is `"true"` owns a group (true
of every state the engine produces: setup creates the attribute only for
group owners and keyboard handling only rewrites its value). -/
def expOnlyB (t : Shape) (s : TState) : Bool :=
  (List.range t.length).all fun i => !(isExpanded s i) || hasGroupIdx t i

theorem expOnly_spec (t : Shape) (s : TState) (hex : expOnlyB t s = true) {i : Nat}
    (hi : i < t.length) (hE : isExpanded s i = true) : hasGroupIdx t i = true := by
  have := List.all_eq_true.mp hex i (List.mem_range.mpr hi)
  simpa [hE] using this

/-- C10.  At the tree boundaries both traversals are total no-ops: on the
last item `setFocusToNextTreeItem` and on the first item
`setFocusToPreviousTreeItem` return without throwing and without changing
any attribute or the focus. -/
theorem claim_C10 (t : Shape) (s : TState) (hn : 0 < t.length)
    (hwf : wfParentB t = true) (hcg : contigB t = true)
    (hex : expOnlyB t s = true) :
    setFocusToNextTreeItem t s (t.length - 1) = Except.ok s ∧
    setFocusToPreviousTreeItem t s 0 = Except.ok s := by
  constructor
  · simp only [setFocusToNextTreeItem]
    by_cases hE : isExpanded s (t.length - 1) = true
    · rw [if_pos hE]
      have hG : hasGroupIdx t (t.length - 1) = true :=
        expOnly_spec t s hex (by omega) hE
      rw [if_pos hG, childrenOf_last_nil t hwf]
      simp
    · rw [if_neg hE, nextSibling_last_none t]
      cases hpar : parentOf t (t.length - 1) with
      | none => rfl
      | some p => simp only [nextSibling_parent_of_last t hwf hcg hpar]
  · simp only [setFocusToPreviousTreeItem]
    rw [prevSibling_zero_none t]
    cases hpar : parentOf t 0 with
    | none => rfl
    | some p => exact absurd (wfParent_spec t hwf hpar).1 (Nat.not_lt_zero p)

theorem claim_C10_witness :
    (0 < treeB.length ∧ wfParentB treeB = true ∧ contigB treeB = true ∧
      expOnlyB treeB (setup treeB) = true) ∧
    setFocusToNextTreeItem treeB (setup treeB) (treeB.length - 1) = Except.ok (setup treeB) ∧
    setFocusToPreviousTreeItem treeB (setup treeB) 0 = Except.ok (setup treeB) :=
  ⟨⟨by decide, by decide, by decide, by decide⟩,
    claim_C10 treeB (setup treeB) (by decide) (by decide) (by decide) (by decide)⟩

/-! ### Setup with a pre-marked active item -/

/-- The state after `adjustLinkAttributes` has processed the first `k`
items. -/
def linkPhase (t : Shape) (k : Nat) : TState :=
  (List.range k).foldl (processItem t) (initState.setRootRole "tree")

theorem linkPhase_succ (t : Shape) (k : Nat) :
    linkPhase t (k + 1) = processItem t (linkPhase t k) k := by
  rw [linkPhase, linkPhase, List.range_succ, List.foldl_append, List.foldl_cons, List.foldl_nil]

/-- Exactly the item at index `a` carries the `is-active` class. -/
def uniqueActiveB (t : Shape) (a : Nat) : Bool :=
  isActive t a && ((List.range t.length).all fun j => !(isActive t j) || decide (j = a))

theorem active_of_unique (t : Shape) (a : Nat) (h : uniqueActiveB t a = true) :
    isActive t a = true := by
  have h2 := h
  rw [uniqueActiveB, Bool.and_eq_true] at h2
  exact h2.1

theorem uniqueActive_spec (t : Shape) (a : Nat) (h : uniqueActiveB t a = true) {j : Nat}
    (hj : j < t.length) (hA : isActive t j = true) : j = a := by
  have h2 := h
  rw [uniqueActiveB, Bool.and_eq_true] at h2
  have h3 := List.all_eq_true.mp h2.2 j (List.mem_range.mpr hj)
  simpa [hA] using h3

theorem inactive_of_ne (t : Shape) (a : Nat) (h : uniqueActiveB t a = true) {j : Nat}
    (hj : j < t.length) (hne : j ≠ a) : isActive t j = false := by
  cases hA : isActive t j with
  | false => rfl
  | true => exact absurd (uniqueActive_spec t a h hj hA) hne

theorem processItem_exp_inactive (t : Shape) (s : TState) (j : Nat)
    (hj : isActive t j = false) (k : Nat) :
    (processItem t s j).ariaExpanded k
      = if k = j ∧ hasGroupIdx t j = true then some "false" else s.ariaExpanded k := by
  by_cases hG : hasGroupIdx t j = true <;> by_cases hk : k = j <;>
    simp [processItem, hj, hG, hk, setExpanded_ariaExpanded]

/-- Before the active item is reached, every processed group owner is
collapsed and no other item carries the attribute. -/
theorem linkPhase_exp_before (t : Shape) (a : Nat) (hun : uniqueActiveB t a = true)
    (han : a < t.length) :
    ∀ k, k ≤ a → ∀ m, (linkPhase t k).ariaExpanded m
      = if m < k ∧ hasGroupIdx t m = true then some "false" else none := by
  intro k
  induction k with
  | zero => intro hk m; simp [linkPhase, initState, TState.setRootRole]
  | succ k ih =>
    intro hk m
    rw [linkPhase_succ]
    have hkA : isActive t k = false := inactive_of_ne t a hun (by omega) (by omega)
    rw [processItem_exp_inactive t _ k hkA m, ih (by omega) m]
    by_cases hm : m = k
    · subst hm
      by_cases hG : hasGroupIdx t m = true <;> simp [hG, Nat.lt_succ_self, Nat.lt_irrefl]
    · have hiff : m < k + 1 ↔ m < k := by omega
      simp [hm, hiff]

theorem ancestors_two (t : Shape) {a p1 p0 : Nat}
    (h1 : parentOf t a = some p1) (h2 : parentOf t p1 = some p0)
    (h3 : parentOf t p0 = none) (hlt : p0 < p1) (hlt2 : p1 < a) :
    ancestors t a = [p1, p0] := by
  obtain ⟨f, rfl⟩ : ∃ f, a = f + 2 := ⟨a - 2, by omega⟩
  rw [ancestors]
  simp only [ancestorsFuel, h1, h2]
  rw [ancestorsFuel_none t f p0 h3]

/-- Processing the active item forces both of its ancestor owners to the
expanded state. -/
theorem linkPhase_exp_at_active (t : Shape) (a p1 p0 : Nat)
    (hwf : wfParentB t = true) (hun : uniqueActiveB t a = true) (han : a < t.length)
    (h1 : parentOf t a = some p1) (h2 : parentOf t p1 = some p0)
    (h3 : parentOf t p0 = none) :
    (linkPhase t (a + 1)).ariaExpanded p1 = some "true" ∧
    (linkPhase t (a + 1)).ariaExpanded p0 = some "true" := by
  obtain ⟨hp1a, hG1⟩ := wfParent_spec t hwf h1
  obtain ⟨hp0p1, hG0⟩ := wfParent_spec t hwf h2
  have hA : isActive t a = true := active_of_unique t a hun
  have eb := linkPhase_exp_before t a hun han a le_rfl
  have he_a : (linkPhase t a).ariaExpanded a = none := by
    rw [eb a]; simp [Nat.lt_irrefl]
  have he_p1 : (linkPhase t a).ariaExpanded p1 = some "false" := by
    rw [eb p1]; simp [hp1a, hG1]
  have he_p0 : (linkPhase t a).ariaExpanded p0 = some "false" := by
    rw [eb p0]; simp [show p0 < a by omega, hG0]
  have hne1a : p1 ≠ a := by omega
  have hne0a : p0 ≠ a := by omega
  have hne01 : p0 ≠ p1 := by omega
  have hne10 : p1 ≠ p0 := by omega
  rw [linkPhase_succ]
  refine ⟨?_, ?_⟩ <;>
    (by_cases hGa : hasGroupIdx t a = true <;>
      simp [processItem, hA, hGa, updateActiveTree,
        ancestors_two t h1 h2 h3 hp0p1 hp1a, expandChainStep,
        setExpanded_ariaExpanded, he_a, he_p1, he_p0, hne1a, hne0a, hne01, hne10])

/-- After the active item has been processed, the two ancestors stay
expanded through the rest of the pass. -/
theorem linkPhase_exp_after (t : Shape) (a p1 p0 : Nat)
    (hwf : wfParentB t = true) (hun : uniqueActiveB t a = true) (han : a < t.length)
    (h1 : parentOf t a = some p1) (h2 : parentOf t p1 = some p0)
    (h3 : parentOf t p0 = none) :
    ∀ k, a < k → k ≤ t.length →
      (linkPhase t k).ariaExpanded p1 = some "true" ∧
      (linkPhase t k).ariaExpanded p0 = some "true" := by
  obtain ⟨hp1a, hG1⟩ := wfParent_spec t hwf h1
  obtain ⟨hp0p1, hG0⟩ := wfParent_spec t hwf h2
  intro k
  induction k with
  | zero => intro hak hkn; omega
  | succ k ih =>
    intro hak hkn
    by_cases hka : a < k
    · obtain ⟨ih1, ih2⟩ := ih hka (by omega)
      rw [linkPhase_succ]
      have hkA : isActive t k = false := inactive_of_ne t a hun (by omega) (by omega)
      rw [processItem_exp_inactive t _ k hkA p1, processItem_exp_inactive t _ k hkA p0]
      constructor
      · rw [if_neg, ih1]
        rintro ⟨hp, _⟩
        omega
      · rw [if_neg, ih2]
        rintro ⟨hp, _⟩
        omega
    · have hka2 : k = a := by omega
      subst hka2
      exact linkPhase_exp_at_active t k p1 p0 hwf hun (by omega) h1 h2 h3

/-! ### Tab indices after setup -/

theorem processItem_tab (t : Shape) (s : TState) (j m : Nat) :
    (processItem t s j).tabIndex m
      = if m = j then (if isActive t j = true then (0 : Int) else -1) else s.tabIndex m := by
  by_cases hA : isActive t j = true <;> by_cases hG : hasGroupIdx t j = true <;>
    by_cases hm : m = j <;>
      simp [processItem, hA, hG, hm, updateActiveTree_tabIndex, setTab_tabIndex]

theorem foldl_processItem_tab (t : Shape) :
    ∀ (L : List Nat) (s : TState) (m : Nat),
      (L.foldl (processItem t) s).tabIndex m
        = if m ∈ L then (if isActive t m = true then (0 : Int) else -1) else s.tabIndex m := by
  intro L
  induction L with
  | nil => intro s m; simp
  | cons j L ih =>
    intro s m
    rw [List.foldl_cons, ih, processItem_tab]
    by_cases hm : m ∈ L
    · simp [hm, List.mem_cons]
    · by_cases hmj : m = j
      · subst hmj; simp [hm, List.mem_cons]
      · simp [hm, hmj, List.mem_cons]

theorem adjustSubMenuAttributes_tabIndex (t : Shape) (s : TState) :
    (adjustSubMenuAttributes t s).tabIndex = s.tabIndex := by
  rw [adjustSubMenuAttributes]
  exact foldlPres TState.tabIndex (subMenuStep t)
    (fun s i => by rw [subMenuStep]; split <;> simp) _ s

theorem attachTriggers_tabIndex (t : Shape) (s : TState) :
    (attachTriggers t s).tabIndex = s.tabIndex := by
  rw [attachTriggers]
  exact foldlPres TState.tabIndex (triggerStep t)
    (fun s i => by rw [triggerStep]; split <;> simp) _ s

/-- The active item is the only tree item whose tab index is 0. -/
def soleTabZeroB (t : Shape) (s : TState) (a : Nat) : Bool :=
  (List.range t.length).all fun m => decide (s.tabIndex m = 0) == decide (m = a)

/-- C8 (Scenario D).  When exactly one item is pre-marked active and it is
nested two levels deep, setup leaves both of its ancestor owners with
`aria-expanded="true"` and makes the active item the sole item with tab
index 0. -/
theorem claim_C8 (t : Shape) (a p1 p0 : Nat)
    (hwf : wfParentB t = true) (hun : uniqueActiveB t a = true) (han : a < t.length)
    (h1 : parentOf t a = some p1) (h2 : parentOf t p1 = some p0)
    (h3 : parentOf t p0 = none) :
    (setup t).ariaExpanded p1 = some "true" ∧
    (setup t).ariaExpanded p0 = some "true" ∧
    soleTabZeroB t (setup t) a = true := by
  have hlink : adjustLinkAttributes t (initState.setRootRole "tree") = linkPhase t t.length := rfl
  have hexp := linkPhase_exp_after t a p1 p0 hwf hun han h1 h2 h3 t.length han le_rfl
  refine ⟨?_, ?_, ?_⟩
  · rw [setup, initTreeViews, attachTriggers_ariaExpanded,
      adjustSubMenuAttributes_ariaExpanded, hlink]
    exact hexp.1
  · rw [setup, initTreeViews, attachTriggers_ariaExpanded,
      adjustSubMenuAttributes_ariaExpanded, hlink]
    exact hexp.2
  · rw [soleTabZeroB, List.all_eq_true]
    intro m hmem
    have hm := List.mem_range.mp hmem
    rw [setup, initTreeViews, attachTriggers_tabIndex, adjustSubMenuAttributes_tabIndex,
      hlink, linkPhase, foldl_processItem_tab, if_pos (List.mem_range.mpr hm)]
    by_cases hma : m = a
    · subst hma
      simp [active_of_unique t m hun]
    · simp [inactive_of_ne t a hun hm hma, hma]

theorem claim_C8_witness :
    (wfParentB treeD = true ∧ uniqueActiveB treeD 2 = true ∧ 2 < treeD.length ∧
      parentOf treeD 2 = some 1 ∧ parentOf treeD 1 = some 0 ∧ parentOf treeD 0 = none) ∧
    ((setup treeD).ariaExpanded 1 = some "true" ∧ (setup treeD).ariaExpanded 0 = some "true" ∧
      soleTabZeroB treeD (setup treeD) 2 = true) :=
  ⟨⟨by decide, by decide, by decide, by decide, by decide, by decide⟩,
    claim_C8 treeD 2 1 0 (by decide) (by decide) (by decide) (by decide) (by decide) (by decide)⟩
